import Mathlib

set_option maxRecDepth 40000

/-!
Verification development for the MinerU OCR service (`services/apis_ocr.py`)
and its forwarding gateway (`services/apis_forward.py`).

The Python code is shallowly embedded as executable Lean definitions:

* bytes are `List Nat` (each element a byte value),
* the MD5 primitive used by `hashlib.md5` is implemented in full
  (padding, little-endian words, 64 rounds, hex output),
* the filesystem pieces the pipeline touches (temp file, per-key input and
  output directories) are explicit record fields,
* the output directory of a content key is modelled as the list of files
  produced by `os.walk` in traversal order,
* outcomes of external collaborators (the `mineru` subprocess, the remote
  backend, HTTP downloads) are explicit parameters enumerating the branch
  taken by the corresponding `try`/`except` in the source.
-/

namespace MineruClient

/-! ## Byte-stream chunking (`iter(lambda: f.read(8192), b'')`) -/

/-- Fuel-indexed worker for `chunksOf`; the fuel only needs to cover the
list's length, so recursion is structural and kernel-computable. -/
def chunksOfAux (n : Nat) : Nat → List α → List (List α)
  | 0, _ => []
  | _, [] => []
  | fuel + 1, a :: t =>
    if n = 0 then [] else (a :: t).take n :: chunksOfAux n fuel ((a :: t).drop n)

/-- Split a list into consecutive chunks of at most `n` elements, the way a
chunked `f.read(n)` loop visits a file. -/
def chunksOf (n : Nat) (l : List α) : List (List α) :=
  chunksOfAux n l.length l

theorem chunksOfAux_fuel_irrelevant (n : Nat) :
    ∀ (f1 f2 : Nat) (l : List α), l.length ≤ f1 → l.length ≤ f2 →
      chunksOfAux n f1 l = chunksOfAux n f2 l := by
  intro f1
  induction f1 with
  | zero =>
    intro f2 l h1 h2
    have : l = [] := List.length_eq_zero.mp (Nat.le_zero.mp h1)
    subst this
    cases f2 <;> rfl
  | succ m ih =>
    intro f2 l h1 h2
    match l, f2, h2 with
    | [], f2, h2 => cases f2 <;> rfl
    | a :: t, f2 + 1, h2 =>
      show chunksOfAux n (m + 1) (a :: t) = chunksOfAux n (f2 + 1) (a :: t)
      unfold chunksOfAux
      by_cases h0 : n = 0
      · simp [h0]
      · simp only [h0, if_false]
        have hd : ((a :: t).drop n).length ≤ m := by
          have hp : 0 < n := Nat.pos_of_ne_zero h0
          simp only [List.length_drop, List.length_cons] at *
          omega
        have hd2 : ((a :: t).drop n).length ≤ f2 := by
          have hp : 0 < n := Nat.pos_of_ne_zero h0
          simp only [List.length_drop, List.length_cons] at *
          omega
        rw [ih f2 ((a :: t).drop n) hd hd2]

theorem chunksOf_nil (n : Nat) : chunksOf n ([] : List α) = [] := by
  rfl

theorem chunksOf_cons (n : Nat) (hn : n ≠ 0) (a : α) (t : List α) :
    chunksOf n (a :: t) = (a :: t).take n :: chunksOf n ((a :: t).drop n) := by
  show chunksOfAux n (t.length + 1) (a :: t) = _
  unfold chunksOfAux
  simp only [hn, if_false]
  rw [chunksOfAux_fuel_irrelevant n t.length ((a :: t).drop n).length ((a :: t).drop n)
    (by have hp : 0 < n := Nat.pos_of_ne_zero hn
        simp only [List.length_drop, List.length_cons]
        omega)
    (Nat.le_refl _)]
  rfl

theorem chunksOf_drop_shorter (n : Nat) (hn : n ≠ 0) (a : α) (t : List α) :
    ((a :: t).drop n).length < (a :: t).length := by
  have : 0 < n := Nat.pos_of_ne_zero hn
  simp only [List.length_drop, List.length_cons]
  omega

theorem chunksOf_flatten (n : Nat) (hn : n ≠ 0) (l : List α) :
    (chunksOf n l).flatten = l := by
  have H : ∀ (m : Nat) (l : List α), l.length ≤ m → (chunksOf n l).flatten = l := by
    intro m
    induction m with
    | zero =>
      intro l hl
      have : l = [] := List.length_eq_zero.mp (Nat.le_zero.mp hl)
      subst this
      simp [chunksOf_nil]
    | succ m ih =>
      intro l hl
      match l with
      | [] => simp [chunksOf_nil]
      | a :: t =>
        rw [chunksOf_cons n hn]
        rw [List.flatten_cons]
        rw [ih ((a :: t).drop n)
          (by have := chunksOf_drop_shorter n hn a t
              simp only [List.length_cons] at *; omega)]
        exact List.take_append_drop n (a :: t)
  exact H l.length l (Nat.le_refl _)

theorem chunksOf_length_le (n : Nat) (l : List α) :
    ∀ c ∈ chunksOf n l, c.length ≤ n := by
  have H : ∀ (m : Nat) (l : List α), l.length ≤ m → ∀ c ∈ chunksOf n l, c.length ≤ n := by
    intro m
    induction m with
    | zero =>
      intro l hl c hc
      have : l = [] := List.length_eq_zero.mp (Nat.le_zero.mp hl)
      subst this
      simp [chunksOf_nil] at hc
    | succ m ih =>
      intro l hl c hc
      match l with
      | [] => simp [chunksOf_nil] at hc
      | a :: t =>
        by_cases h0 : n = 0
        · unfold chunksOf chunksOfAux at hc
          simp [h0] at hc
        · rw [chunksOf_cons n h0] at hc
          cases List.mem_cons.mp hc with
          | inl h => subst h; simp [List.length_take_le]
          | inr h =>
            exact ih ((a :: t).drop n)
              (by have := chunksOf_drop_shorter n h0 a t
                  simp only [List.length_cons] at *; omega) c h
  exact H l.length l (Nat.le_refl _)

theorem chunksOf_ne_nil (n : Nat) (hn : n ≠ 0) (l : List α) :
    ∀ c ∈ chunksOf n l, c ≠ [] := by
  have H : ∀ (m : Nat) (l : List α), l.length ≤ m → ∀ c ∈ chunksOf n l, c ≠ [] := by
    intro m
    induction m with
    | zero =>
      intro l hl c hc
      have : l = [] := List.length_eq_zero.mp (Nat.le_zero.mp hl)
      subst this
      simp [chunksOf_nil] at hc
    | succ m ih =>
      intro l hl c hc
      match l with
      | [] => simp [chunksOf_nil] at hc
      | a :: t =>
        rw [chunksOf_cons n hn] at hc
        cases List.mem_cons.mp hc with
        | inl h =>
          subst h
          have hpos : 0 < n := Nat.pos_of_ne_zero hn
          cases n with
          | zero => exact absurd rfl hn
          | succ k => simp [List.take_succ_cons]
        | inr h =>
          exact ih ((a :: t).drop n)
            (by have := chunksOf_drop_shorter n hn a t
                simp only [List.length_cons] at *; omega) c h
  exact H l.length l (Nat.le_refl _)

theorem foldl_append_flatten (L : List (List α)) (a : List α) :
    L.foldl (fun x y => x ++ y) a = a ++ L.flatten := by
  induction L generalizing a with
  | nil => simp
  | cons h t ih => simp [List.foldl_cons, ih, List.flatten_cons, List.append_assoc]

/-! ## MD5 (`hashlib.md5`), on byte lists, with `% 2 ^ 32` arithmetic -/

def M32 : Nat := 4294967296

/-- 32-bit left rotation. -/
def rotl32 (x s : Nat) : Nat :=
  ((x <<< s) ||| (x >>> (32 - s))) % M32

/-- 32-bit complement (inputs are kept below `2 ^ 32`). -/
def not32 (x : Nat) : Nat := x ^^^ 4294967295

/-- The 64 MD5 round constants `K[i] = floor(2^32 * abs(sin(i+1)))`. -/
def mdK : List Nat :=
  [0xd76aa478, 0xe8c7b756, 0x242070db, 0xc1bdceee,
   0xf57c0faf, 0x4787c62a, 0xa8304613, 0xfd469501,
   0x698098d8, 0x8b44f7af, 0xffff5bb1, 0x895cd7be,
   0x6b901122, 0xfd987193, 0xa679438e, 0x49b40821,
   0xf61e2562, 0xc040b340, 0x265e5a51, 0xe9b6c7aa,
   0xd62f105d, 0x02441453, 0xd8a1e681, 0xe7d3fbc8,
   0x21e1cde6, 0xc33707d6, 0xf4d50d87, 0x455a14ed,
   0xa9e3e905, 0xfcefa3f8, 0x676f02d9, 0x8d2a4c8a,
   0xfffa3942, 0x8771f681, 0x6d9d6122, 0xfde5380c,
   0xa4beea44, 0x4bdecfa9, 0xf6bb4b60, 0xbebfbc70,
   0x289b7ec6, 0xeaa127fa, 0xd4ef3085, 0x04881d05,
   0xd9d4d039, 0xe6db99e5, 0x1fa27cf8, 0xc4ac5665,
   0xf4292244, 0x432aff97, 0xab9423a7, 0xfc93a039,
   0x655b59c3, 0x8f0ccc92, 0xffeff47d, 0x85845dd1,
   0x6fa87e4f, 0xfe2ce6e0, 0xa3014314, 0x4e0811a1,
   0xf7537e82, 0xbd3af235, 0x2ad7d2bb, 0xeb86d391]

/-- The per-round left-rotation amounts. -/
def mdS : List Nat :=
  [7, 12, 17, 22, 7, 12, 17, 22, 7, 12, 17, 22, 7, 12, 17, 22,
   5, 9, 14, 20, 5, 9, 14, 20, 5, 9, 14, 20, 5, 9, 14, 20,
   4, 11, 16, 23, 4, 11, 16, 23, 4, 11, 16, 23, 4, 11, 16, 23,
   6, 10, 15, 21, 6, 10, 15, 21, 6, 10, 15, 21, 6, 10, 15, 21]

/-- Round mixing function, by round group. -/
def md5F (i b c d : Nat) : Nat :=
  if i < 16 then (b &&& c) ||| (not32 b &&& d)
  else if i < 32 then (d &&& b) ||| (not32 d &&& c)
  else if i < 48 then b ^^^ c ^^^ d
  else c ^^^ (b ||| not32 d)

/-- Message-word index used by round `i`. -/
def md5G (i : Nat) : Nat :=
  if i < 16 then i
  else if i < 32 then (5 * i + 1) % 16
  else if i < 48 then (3 * i + 5) % 16
  else (7 * i) % 16

/-- Little-endian 32-bit word `j` of a 64-byte block. -/
def leWord (bs : List Nat) (j : Nat) : Nat :=
  bs.getD (4 * j) 0 + 256 * bs.getD (4 * j + 1) 0 +
    65536 * bs.getD (4 * j + 2) 0 + 16777216 * bs.getD (4 * j + 3) 0

/-- One MD5 round on state `(a, b, c, d)`. -/
def md5Round (block : List Nat) (st : Nat × Nat × Nat × Nat) (i : Nat) :
    Nat × Nat × Nat × Nat :=
  let a := st.1
  let b := st.2.1
  let c := st.2.2.1
  let d := st.2.2.2
  let f := (md5F i b c d + a + mdK.getD i 0 + leWord block (md5G i)) % M32
  (d, (b + rotl32 f (mdS.getD i 0)) % M32, b, c)

/-- Process one 64-byte block. -/
def md5Block (st : Nat × Nat × Nat × Nat) (block : List Nat) :
    Nat × Nat × Nat × Nat :=
  let r := (List.range 64).foldl (md5Round block) st
  ((st.1 + r.1) % M32, (st.2.1 + r.2.1) % M32,
   (st.2.2.1 + r.2.2.1) % M32, (st.2.2.2 + r.2.2.2) % M32)

/-- Little-endian byte expansion of a value, `k` bytes wide. -/
def leBytes (k n : Nat) : List Nat :=
  (List.range k).map fun i => (n >>> (8 * i)) % 256

/-- MD5 padding: `0x80`, zeros to 56 mod 64, then the 64-bit bit length. -/
def md5Pad (msg : List Nat) : List Nat :=
  let len := msg.length
  let zeros := (119 - (len % 64)) % 64
  msg ++ [0x80] ++ List.replicate zeros 0 ++ leBytes 8 ((8 * len) % (M32 * M32))

/-- The 16-byte MD5 digest of a byte list. -/
def md5Digest (msg : List Nat) : List Nat :=
  let blocks := chunksOf 64 (md5Pad msg)
  let r := blocks.foldl md5Block (0x67452301, 0xefcdab89, 0x98badcfe, 0x10325476)
  leBytes 4 r.1 ++ leBytes 4 r.2.1 ++ leBytes 4 r.2.2.1 ++ leBytes 4 r.2.2.2

def hexDigitChar (n : Nat) : Char :=
  if n < 10 then Char.ofNat (48 + n) else Char.ofNat (87 + n)

/-- Two lowercase hex digits of a byte. -/
def hexByte (n : Nat) : String :=
  String.mk [hexDigitChar (n / 16 % 16), hexDigitChar (n % 16)]

/-- `hexdigest()`: the 32-character lowercase hex form of the digest. -/
def md5Hex (msg : List Nat) : String :=
  String.join ((md5Digest msg).map hexByte)

/-- `md5_hash.update(chunk)`: the hash object's state is, extensionally, the
byte stream folded into it so far. -/
def md5_update (ctx chunk : List Nat) : List Nat := ctx ++ chunk

/-- `calculate_file_md5`: fold the file through the hash in 8192-byte chunks
and return the hex digest (`services/apis_ocr.py`, lines 270-276). -/
def calculate_file_md5 (content : List Nat) : String :=
  md5Hex ((chunksOf 8192 content).foldl md5_update [])

theorem calculate_file_md5_eq_md5Hex (content : List Nat) :
    calculate_file_md5 content = md5Hex content := by
  unfold calculate_file_md5 md5_update
  rw [foldl_append_flatten, List.nil_append, chunksOf_flatten 8192 (by decide)]

/-! ## String helpers -/

/-- `str.endswith(suffix)` on Python strings. -/
def strEndsWith (s suff : String) : Bool :=
  decide (s.data.drop (s.data.length - suff.data.length) = suff.data)

theorem string_data_append (s t : String) : (s ++ t).data = s.data ++ t.data := by
  cases s
  cases t
  rfl

theorem strEndsWith_append (s suff : String) :
    strEndsWith (s ++ suff) suff = true := by
  unfold strEndsWith
  rw [string_data_append]
  have hlen : (s.data ++ suff.data).length - suff.data.length = s.data.length := by
    simp
  rw [hlen, List.drop_left]
  simp

/-- `os.path.basename`: everything after the final slash. -/
def basenameAux : List Char → List Char → List Char
  | [], acc => acc
  | c :: rest, acc => basenameAux rest (if c = '/' then [] else acc ++ [c])

def basename (p : String) : String := String.mk (basenameAux p.data [])

/-- UTF-8 byte encoding of one character. -/
def utf8EncodeCharNat (c : Char) : List Nat :=
  let n := c.toNat
  if n < 128 then [n]
  else if n < 2048 then [192 + n / 64, 128 + n % 64]
  else if n < 65536 then [224 + n / 4096, 128 + (n / 64) % 64, 128 + n % 64]
  else [240 + n / 262144, 128 + (n / 4096) % 64, 128 + (n / 64) % 64, 128 + n % 64]

def utf8Bytes (s : String) : List Nat := s.data.flatMap utf8EncodeCharNat

def hexDigitCharUpper (n : Nat) : Char :=
  if n < 10 then Char.ofNat (48 + n) else Char.ofNat (55 + n)

/-- `urllib.parse.quote` with `safe='/'`: percent-encode every UTF-8 byte
outside `[A-Za-z0-9_.~-]` and `/`. -/
def urlQuoteByte (b : Nat) : String :=
  if (65 ≤ b ∧ b ≤ 90) ∨ (97 ≤ b ∧ b ≤ 122) ∨ (48 ≤ b ∧ b ≤ 57) ∨
      b = 95 ∨ b = 46 ∨ b = 45 ∨ b = 126 ∨ b = 47 then
    String.mk [Char.ofNat b]
  else
    String.mk ['%', hexDigitCharUpper (b / 16 % 16), hexDigitCharUpper (b % 16)]

def urlQuote (s : String) : String :=
  String.join ((utf8Bytes s).map urlQuoteByte)

/-! ## Output artifact model

The output directory of one content key is modelled as the list of files an
`os.walk` traversal enumerates, in traversal order.  A file's `content` is
`none` when opening/reading it raises (the `except` branches of
`read_md_content`). -/

structure OutFile where
  name : String
  relpath : String
  size : Nat
  content : Option String
deriving DecidableEq, Repr

structure FileInfo where
  name : String
  path : String
  size : Nat
deriving DecidableEq, Repr

/-- `get_output_files`: enumerate every file under the output directory with
name, relative path and size (`services/apis_ocr.py`, lines 554-567). -/
def get_output_files (walk : List OutFile) : List FileInfo :=
  walk.map fun f => ⟨f.name, f.relpath, f.size⟩

/-- `generate_download_urls` (`services/apis_ocr.py`, lines 570-577). -/
def generate_download_urls (md5 : String) (files : List FileInfo) (base_url : String) :
    List (String × String) :=
  files.map fun f =>
    (f.name, base_url ++ "/files/" ++ urlQuote ("output/" ++ md5 ++ "/" ++ f.path))

/-- Loop body of `read_md_content`: walk the enumeration remembering the
first `.md` file; an exact `{md5}.md` match whose read succeeds returns
immediately; a failed read falls through; at the end the first `.md` file is
read as the fallback. -/
def read_md_aux (target : String) : List OutFile → Option OutFile → Option String
  | [], first =>
    match first with
    | some f => f.content
    | none => none
  | f :: rest, first =>
    if strEndsWith f.name ".md" then
      let first' := match first with
        | some g => some g
        | none => some f
      if f.name = target then
        match f.content with
        | some c => some c
        | none => read_md_aux target rest first'
      else read_md_aux target rest first'
    else read_md_aux target rest first

/-- `read_md_content` (`services/apis_ocr.py`, lines 580-618): `none` when the
output directory does not exist, when it holds no `.md` file, or when every
attempted read fails. -/
def read_md_content (outDir : Option (List OutFile)) (md5 : String) : Option String :=
  match outDir with
  | none => none
  | some walk => read_md_aux (md5 ++ ".md") walk none

/-- The cache criterion of `_process_pdf_task` (lines 674-681): the output
directory exists and some file under it ends in `.md`. -/
def has_md_output : Option (List OutFile) → Bool
  | some walk => walk.any fun f => strEndsWith f.name ".md"
  | none => false

/-! ## Conversion Executor (`run_mineru`, lines 507-551) -/

/-- The branch `subprocess.run` takes, as observed by `run_mineru`'s
`try`/`except`: normal completion with an exit code and captured streams,
`TimeoutExpired`, `FileNotFoundError`, or any other exception. -/
inductive EngineOutcome where
  | completed (returncode : Int) (stdout stderr : String)
  | timedOut
  | engineMissing
  | raised (msg : String)
deriving DecidableEq, Repr

def engineTimeoutMessage : String := "mineru 执行超时（30分钟）"

def engineMissingMessage : String := "mineru 命令未找到，请确保已安装 MinerU"

/-- `run_mineru`: classify the single subprocess invocation's outcome.  The
second component counts subprocess invocations performed by the call; the
source contains exactly one `subprocess.run` call site and no retry loop, so
it is `1` on every path. -/
def run_mineru (eng : EngineOutcome) : (Bool × String) × Nat :=
  (match eng with
   | .completed rc stdout stderr =>
     if rc = 0 then (true, stdout)
     else (false, "mineru 执行失败: " ++ stderr)
   | .timedOut => (false, engineTimeoutMessage)
   | .engineMissing => (false, engineMissingMessage)
   | .raised e => (false, "执行 mineru 时发生错误: " ++ e), 1)

/-- The hard wall-clock timeout passed to `subprocess.run` (line 530). -/
def engineTimeoutSeconds : Nat := 1800

/-! ## Per-key lock (`get_lock_for_md5`, lines 393-396) -/

structure FileLockSpec where
  lock_file : String
  timeout : Nat
deriving DecidableEq, Repr

/-- `get_lock_for_md5`: a filesystem lock named after the MD5, with a
300-second acquisition timeout. -/
def get_lock_for_md5 (md5 : String) : FileLockSpec :=
  ⟨"workspace/locks/" ++ md5 ++ ".lock", 300⟩

/-! ## Pipeline state and `_process_pdf_task` (lines 621-763) -/

/-- Pointwise update of a string-keyed map. -/
def upd {α : Type} (f : String → α) (k : String) (v : α) : String → α :=
  fun x => if x = k then v else f x

theorem upd_same {α : Type} (f : String → α) (k : String) (v : α) :
    upd f k v k = v := by
  simp [upd]

theorem upd_other {α : Type} (f : String → α) (k k' : String) (v : α) (h : k' ≠ k) :
    upd f k v k' = f k' := by
  simp [upd, h]

/-- The filesystem slice the pipeline touches.  `tempExists` is the request's
uniquely-named temporary file; the other maps are keyed by content key. -/
structure FS where
  tempExists : Bool
  inputDir : String → Bool
  inputFile : String → Bool
  inputNames : String → List String
  output : String → Option (List OutFile)

structure HttpErr where
  status : Nat
  detail : String
deriving DecidableEq, Repr

/-- Response model of `MinerUResponse`; `mdField` is the dynamically attached
`{md5}.md` attribute. -/
structure MinerUResponse where
  success : Bool
  message : String
  md5 : Option String
  input_path : Option String
  output_path : Option String
  files : Option (List FileInfo)
  download_urls : Option (List (String × String))
  mdField : Option String
deriving DecidableEq, Repr

def WORKSPACE_INPUT : String := "workspace/input"

def WORKSPACE_OUTPUT : String := "workspace/output"

def input_pdf_path (md5 : String) : String :=
  WORKSPACE_INPUT ++ "/" ++ md5 ++ "/" ++ md5 ++ ".pdf"

def output_dir_path (md5 : String) : String :=
  WORKSPACE_OUTPUT ++ "/" ++ md5

/-- Result of one `_process_pdf_task` run: the returned tuple or the raised
`HTTPException`, the filesystem afterwards, and how many times the engine
was invoked. -/
structure PdfTaskRun where
  result : Except HttpErr (MinerUResponse × Nat × Nat × Bool)
  fs : FS
  engineCalls : Nat

def busyMessage (md5 : String) : String :=
  "文件正在被其他请求处理，请稍后重试（MD5: " ++ md5 ++ "）"

/-- `save_original_filename` (lines 449-461): append the submitted name to
`filename.txt` unless already recorded. -/
def save_original_filename (names : List String) (filename : String) : List String :=
  if filename ∈ names then names else names ++ [filename]

/-- `get_original_filename` (lines 464-474): the first recorded name. -/
def get_original_filename (names : List String) : Option String :=
  names.head?

/-- `_process_pdf_task`.  `lockAcquired` is whether the per-key `FileLock` was
obtained within its timeout (`except Timeout` otherwise); `eng` is the branch
the engine subprocess takes; `engineLeft` is the walk of whatever the engine
process left under the output directory when it returned or was killed;
`pdfPages` is what `get_pdf_page_count` (external PyMuPDF) reports. -/
def process_pdf_task (fs : FS) (bytes : List Nat) (filename : String)
    (base_url : String) (lockAcquired : Bool) (eng : EngineOutcome)
    (engineLeft : List OutFile) (pdfPages : Nat) : PdfTaskRun :=
  let md5 := calculate_file_md5 bytes
  if lockAcquired then
    -- with lock: stage the input under workspace/input/<md5>/
    let names := save_original_filename (fs.inputNames md5) filename
    let fs1 : FS :=
      { fs with
        tempExists := false
        inputDir := upd fs.inputDir md5 true
        inputFile := upd fs.inputFile md5 true
        inputNames := upd fs.inputNames md5 names }
    let is_cached := has_md_output (fs.output md5)
    if is_cached then
      let walk := (fs.output md5).getD []
      let files := get_output_files walk
      let urls := generate_download_urls md5 files base_url
      let mdContent := read_md_content (fs.output md5) md5
      let mdChars := (mdContent.map String.length).getD 0
      let origName := (get_original_filename names).getD filename
      { result := .ok
          ({ success := true
             message := "文件已处理过，直接返回结果（原始文件名: " ++ origName ++ "）"
             md5 := some md5
             input_path := some (input_pdf_path md5)
             output_path := some (output_dir_path md5)
             files := some files
             download_urls := some urls
             mdField := mdContent }, pdfPages, mdChars, true)
        fs := fs1
        engineCalls := 0 }
    else
      -- os.makedirs(output_dir); run mineru; the engine leaves `engineLeft`
      let run := run_mineru eng
      let fs2 : FS := { fs1 with output := upd fs.output md5 (some engineLeft) }
      if run.1.1 then
        let files := get_output_files engineLeft
        let urls := generate_download_urls md5 files base_url
        let mdContent := read_md_content (some engineLeft) md5
        let mdChars := (mdContent.map String.length).getD 0
        { result := .ok
            ({ success := true
               message := "处理成功（原始文件名: " ++ filename ++ "）"
               md5 := some md5
               input_path := some (input_pdf_path md5)
               output_path := some (output_dir_path md5)
               files := some files
               download_urls := some urls
               mdField := mdContent }, pdfPages, mdChars, false)
          fs := fs2
          engineCalls := run.2 }
      else
        { result := .ok
            ({ success := false
               message := run.1.2
               md5 := some md5
               input_path := some (input_pdf_path md5)
               output_path := some (output_dir_path md5)
               files := none
               download_urls := none
               mdField := none }, pdfPages, 0, false)
          fs := fs2
          engineCalls := run.2 }
  else
    -- except Timeout: remove the temp file, then raise 409
    { result := .error ⟨409, busyMessage md5⟩
      fs := { fs with tempExists := false }
      engineCalls := 0 }

/-- Projection helpers for stating claims about a run. -/
def runSuccess (r : PdfTaskRun) : Bool :=
  match r.result with
  | .ok (resp, _, _, _) => resp.success
  | .error _ => false

def runMessage (r : PdfTaskRun) : Option String :=
  match r.result with
  | .ok (resp, _, _, _) => some resp.message
  | .error _ => none

def runCachedFlag (r : PdfTaskRun) : Bool :=
  match r.result with
  | .ok (_, _, _, cached) => cached
  | .error _ => false

def runMd5 (r : PdfTaskRun) : Option String :=
  match r.result with
  | .ok (resp, _, _, _) => resp.md5
  | .error _ => none

def runFiles (r : PdfTaskRun) : Option (List FileInfo) :=
  match r.result with
  | .ok (resp, _, _, _) => resp.files
  | .error _ => none

/-! ## Status endpoint (`get_status`, lines 1023-1048) -/

structure StatusResp where
  md5 : String
  input_files : List String
  output_files : List FileInfo
  download_urls : List (String × String)
  status : String
deriving DecidableEq, Repr

/-- `GET /status/{md5}`: 404 when the input directory is missing; otherwise
report `completed` exactly when the output enumeration is non-empty. -/
def get_status (md5 : String) (base_url : String) (inputDirExists : Bool)
    (inputFiles : List String) (outDir : Option (List OutFile)) :
    Except HttpErr StatusResp :=
  if inputDirExists then
    let output_files :=
      match outDir with
      | some walk => get_output_files walk
      | none => []
    let download_urls :=
      if output_files.isEmpty then []
      else generate_download_urls md5 output_files base_url
    .ok ⟨md5, inputFiles, output_files, download_urls,
         if output_files.isEmpty then "pending" else "completed"⟩
  else
    .error ⟨404, "未找到对应的任务"⟩

/-! ## Submission endpoints

`POST /mineru` of both services validates the body before touching the disk.
The models record the side effects each path performs, in order. -/

/-- Side effects a submission request performs before reaching the task. -/
inductive Ev where
  | makeTempDir
  | copyLocal (src : String)
  | downloadUrl (u : String)
  | saveUpload
  | submitTask
  | forwardRemote
deriving DecidableEq, Repr

def errNeitherMessage : String := "必须提供 pdf_url 或 pdf_path"

def errBothMessage : String := "只能提供 pdf_url 或 pdf_path 其中一个"

/-- Outcome of `download_pdf`'s streamed HTTP fetch: success, a failure
before the destination file was opened (connection error, bad status), or a
failure after some chunks were already written. -/
inductive FetchOutcome where
  | ok
  | failEarly (e : String)
  | failPartial (e : String)
deriving DecidableEq, Repr

structure OcrEndpointRun where
  result : Except HttpErr Unit
  events : List Ev

/-- `mineru_endpoint` of `services/apis_ocr.py` (lines 778-903), up to the
point where `_process_pdf_task` is dispatched.  `pathExists`/`pathIsPdf`
describe the local path a `pdf_path` submission names; `fetch` is the fate of
a `pdf_url` download. -/
def mineru_endpoint_ocr (pdf_url pdf_path : Option String)
    (pathExists pathIsPdf : Bool) (fetch : FetchOutcome) : OcrEndpointRun :=
  if pdf_url = none ∧ pdf_path = none then
    ⟨.error ⟨400, errNeitherMessage⟩, []⟩
  else if pdf_url.isSome ∧ pdf_path.isSome then
    ⟨.error ⟨400, errBothMessage⟩, []⟩
  else
    match pdf_path with
    | some p =>
      if ¬pathExists then
        ⟨.error ⟨404, "文件不存在: " ++ p⟩, [.makeTempDir]⟩
      else if ¬pathIsPdf then
        ⟨.error ⟨400, "只支持 PDF 文件"⟩, [.makeTempDir]⟩
      else
        ⟨.ok (), [.makeTempDir, .copyLocal p, .submitTask]⟩
    | none =>
      match pdf_url with
      | some u =>
        match fetch with
        | .ok => ⟨.ok (), [.makeTempDir, .downloadUrl u, .submitTask]⟩
        | .failEarly e => ⟨.error ⟨500, "下载 PDF 失败: " ++ e⟩, [.makeTempDir, .downloadUrl u]⟩
        | .failPartial e => ⟨.error ⟨500, "下载 PDF 失败: " ++ e⟩, [.makeTempDir, .downloadUrl u]⟩
      | none => ⟨.error ⟨400, errNeitherMessage⟩, []⟩

/-! ## Forwarding Gateway (`services/apis_forward.py`) -/

/-- What the remote `/file_mineru` call observed by `forward_to_backend`
does: a JSON body, `requests.exceptions.Timeout`, another
`RequestException`, or some other exception. -/
inductive RemoteOutcome where
  | ok (body : String)
  | timedOut
  | requestFailed (e : String)
  | raised (e : String)
deriving DecidableEq, Repr

/-- `forward_to_backend` (lines 151-240): classify the remote call, with the
`finally` block removing the temporary file on every path.  The boolean is
whether the temporary file still exists afterwards. -/
def forward_to_backend (_tempExists : Bool) (ro : RemoteOutcome) :
    Except HttpErr String × Bool :=
  (match ro with
   | .ok body => .ok body
   | .timedOut => .error ⟨504, "后端服务处理超时"⟩
   | .requestFailed e => .error ⟨502, "后端服务请求失败: " ++ e⟩
   | .raised e => .error ⟨500, "转发请求失败: " ++ e⟩, false)

structure FwdEndpointRun where
  result : Except HttpErr String
  tempLeft : Bool
  events : List Ev

/-- Whether `shutil.copy2` of a local `pdf_path` submission succeeded. -/
inductive CopyOutcome where
  | ok
  | failed (e : String)
deriving DecidableEq, Repr

/-- `mineru_endpoint` of `services/apis_forward.py` (lines 254-324).
`tempLeft` is whether the request's uniquely-named temporary file is still on
disk when the handler returns. -/
def mineru_endpoint_fwd (pdf_url pdf_path : Option String)
    (pathExists pathIsPdf : Bool) (cp : CopyOutcome) (fetch : FetchOutcome)
    (ro : RemoteOutcome) : FwdEndpointRun :=
  if pdf_url = none ∧ pdf_path = none then
    ⟨.error ⟨400, errNeitherMessage⟩, false, []⟩
  else if pdf_url.isSome ∧ pdf_path.isSome then
    ⟨.error ⟨400, errBothMessage⟩, false, []⟩
  else
    match pdf_path with
    | some p =>
      if ¬pathExists then
        ⟨.error ⟨404, "文件不存在: " ++ p⟩, false, []⟩
      else if ¬pathIsPdf then
        ⟨.error ⟨400, "只支持 PDF 文件"⟩, false, []⟩
      else
        match cp with
        | .failed e =>
          -- copy2 raised; the generic handler returns 500 with no cleanup
          ⟨.error ⟨500, "处理请求失败: " ++ e⟩, true, [.copyLocal p]⟩
        | .ok =>
          let fwd := forward_to_backend true ro
          ⟨fwd.1, fwd.2, [.copyLocal p, .forwardRemote]⟩
    | none =>
      match pdf_url with
      | some u =>
        match fetch with
        | .failEarly e =>
          ⟨.error ⟨500, "下载 PDF 失败: " ++ e⟩, false, [.downloadUrl u]⟩
        | .failPartial e =>
          -- download_pdf raised after writing chunks; nothing removes the file
          ⟨.error ⟨500, "下载 PDF 失败: " ++ e⟩, true, [.downloadUrl u]⟩
        | .ok =>
          let fwd := forward_to_backend true ro
          ⟨fwd.1, fwd.2, [.downloadUrl u, .forwardRemote]⟩
      | none => ⟨.error ⟨400, errNeitherMessage⟩, false, []⟩

/-- Outcome of saving the uploaded body to the temporary file
(`shutil.copyfileobj` in a `try`/`finally` that only closes the upload):
success, a failure before the destination file was opened, or a failure
after it was opened and partially written. -/
inductive SaveOutcome where
  | ok
  | failEarly (e : String)
  | failPartial (e : String)
deriving DecidableEq, Repr

/-- `file_mineru_endpoint` of `services/apis_forward.py` (lines 327-395):
validate the upload's filename, save the body to a uniquely-named temporary
file, then forward to the backend.  A save failure propagates to the generic
handler, which returns 500 without removing the file; only
`forward_to_backend`'s `finally` block ever unlinks it.  `hasFilename` and
`isPdf` describe `file.filename` and its lowercase `.pdf` check. -/
def file_mineru_endpoint_fwd (hasFilename isPdf : Bool) (sv : SaveOutcome)
    (ro : RemoteOutcome) : FwdEndpointRun :=
  if ¬hasFilename then
    ⟨.error ⟨400, "未提供文件"⟩, false, []⟩
  else if ¬isPdf then
    ⟨.error ⟨400, "只支持 PDF 文件"⟩, false, []⟩
  else
    match sv with
    | .failEarly e =>
      ⟨.error ⟨500, "处理请求失败: " ++ e⟩, false, [.saveUpload]⟩
    | .failPartial e =>
      -- copyfileobj raised after the file was opened; nothing removes it
      ⟨.error ⟨500, "处理请求失败: " ++ e⟩, true, [.saveUpload]⟩
    | .ok =>
      let fwd := forward_to_backend true ro
      ⟨fwd.1, fwd.2, [.saveUpload, .forwardRemote]⟩

/-! ## File-retrieval proxy (`download_file`, lines 398-469) -/

/-- A response from the remote file-serving endpoint.  The code only ever
reads `Content-Type`; `dispositionName` is the filename metadata the remote
may send, carried here to state what happens to it. -/
structure RemoteFileResp where
  contentType : Option String
  dispositionName : Option String
  body : List Nat
deriving DecidableEq, Repr

structure ProxiedRequest where
  method : String
  url : String
  headers : List (String × String)
deriving DecidableEq, Repr

structure StreamedResp where
  chunks : List (List Nat)
  mediaType : String
  disposition : String
deriving DecidableEq, Repr

def MINERU_VLM_URL : String := "http://10.104.255.37:30010"

/-- `GET|POST /files/{path}`: forward the same method with identity headers,
then stream the remote body back in 8192-byte chunks (empty keep-alive
chunks skipped), with the content type defaulting to
`application/octet-stream` and the attachment filename taken from the
request path's basename. -/
def download_file (method path client_ip : String) (auth : Option String)
    (remote : ProxiedRequest → RemoteFileResp) : ProxiedRequest × StreamedResp :=
  let headers :=
    [("X-Forwarded-For", client_ip), ("X-Real-IP", client_ip)] ++
      (match auth with
       | some a => [("Authorization", a)]
       | none => [])
  let req : ProxiedRequest :=
    ⟨if method = "POST" then "POST" else "GET",
     MINERU_VLM_URL ++ "/files/" ++ path, headers⟩
  let resp := remote req
  let content_type := resp.contentType.getD "application/octet-stream"
  let filename := basename path
  (req,
   ⟨(chunksOf 8192 resp.body).filter (fun c => decide (c ≠ [])),
    content_type,
    "attachment; filename=\"" ++ filename ++ "\""⟩)

/-! ## Concurrent submissions: the per-key single-flight protocol

Several `_process_pdf_task` workers (possibly in different processes) race on
the same `FileLock` table.  Each worker follows the source's control flow:
wait for the lock of its key, check the cache under the lock, convert on a
miss, release on exit.  `Step` is one observable transition of that system;
`runs k` counts how often the Conversion Executor was started for key `k`. -/

inductive Phase where
  | waiting
  | locked
  | converting
  | finished (o : Nat)
deriving DecidableEq, Repr

/-- Final outcomes: 0 = served from cache, 1 = fresh conversion,
2 = conversion failed, 3 = busy (lock wait timed out). -/
def outcomeCached : Nat := 0

def outcomeFresh : Nat := 1

def outcomeFailed : Nat := 2

def outcomeBusy : Nat := 3

structure CTask where
  key : String
  phase : Phase
deriving DecidableEq, Repr

structure SysState where
  tasks : List CTask
  lockHolder : String → Option Nat
  hasMd : String → Bool
  runs : String → Nat

/-- One transition of the lock protocol.  When `allowFail = false` every
conversion that starts also succeeds (the regime the spec's N-concurrent
scenario describes); `allowFail = true` additionally lets the engine fail. -/
inductive Step (allowFail : Bool) : SysState → SysState → Prop where
  | acquire (s : SysState) (i : Nat) (k : String)
      (ht : s.tasks[i]? = some ⟨k, .waiting⟩)
      (hl : s.lockHolder k = none) :
      Step allowFail s
        ⟨s.tasks.set i ⟨k, .locked⟩, upd s.lockHolder k (some i), s.hasMd, s.runs⟩
  | cacheHit (s : SysState) (i : Nat) (k : String)
      (ht : s.tasks[i]? = some ⟨k, .locked⟩)
      (hm : s.hasMd k = true) :
      Step allowFail s
        ⟨s.tasks.set i ⟨k, .finished outcomeCached⟩, upd s.lockHolder k none,
         s.hasMd, s.runs⟩
  | cacheMiss (s : SysState) (i : Nat) (k : String)
      (ht : s.tasks[i]? = some ⟨k, .locked⟩)
      (hm : s.hasMd k = false) :
      Step allowFail s
        ⟨s.tasks.set i ⟨k, .converting⟩, s.lockHolder, s.hasMd,
         upd s.runs k (s.runs k + 1)⟩
  | convertOk (s : SysState) (i : Nat) (k : String)
      (ht : s.tasks[i]? = some ⟨k, .converting⟩) :
      Step allowFail s
        ⟨s.tasks.set i ⟨k, .finished outcomeFresh⟩, upd s.lockHolder k none,
         upd s.hasMd k true, s.runs⟩
  | convertFail (s : SysState) (i : Nat) (k : String)
      (ht : s.tasks[i]? = some ⟨k, .converting⟩)
      (hf : allowFail = true) :
      Step allowFail s
        ⟨s.tasks.set i ⟨k, .finished outcomeFailed⟩, upd s.lockHolder k none,
         s.hasMd, s.runs⟩
  | lockTimeout (s : SysState) (i : Nat) (k : String)
      (ht : s.tasks[i]? = some ⟨k, .waiting⟩) :
      Step allowFail s
        ⟨s.tasks.set i ⟨k, .finished outcomeBusy⟩, s.lockHolder, s.hasMd, s.runs⟩

/-- Reachability by the protocol. -/
abbrev Reach (allowFail : Bool) : SysState → SysState → Prop :=
  Relation.ReflTransGen (Step allowFail)

/-- A start state: every request still waiting, no lock held, no conversion
started yet. -/
def InitState (s : SysState) : Prop :=
  (∀ t ∈ s.tasks, t.phase = Phase.waiting) ∧
    (∀ k, s.lockHolder k = none) ∧ (∀ k, s.runs k = 0)

/-- Task `i` holds the lock of key `k` (it is between acquisition and
release: checking the cache or converting). -/
def holdsAt (s : SysState) (i : Nat) (k : String) : Prop :=
  ∃ t, s.tasks[i]? = some t ∧ t.key = k ∧
    (t.phase = Phase.locked ∨ t.phase = Phase.converting)

/-- Task `i` is actively running the Conversion Executor for key `k`. -/
def convAt (s : SysState) (i : Nat) (k : String) : Prop :=
  s.tasks[i]? = some ⟨k, Phase.converting⟩

theorem getq_lt {α : Type} {l : List α} {i : Nat} {a : α} (h : l[i]? = some a) :
    i < l.length := by
  obtain ⟨h1, -⟩ := List.getElem?_eq_some_iff.mp h
  exact h1

/-- Invariant: whoever is between lock acquisition and release for a key is
recorded as that key's lock holder. -/
def LockInv (s : SysState) : Prop :=
  ∀ i k, holdsAt s i k → s.lockHolder k = some i

/-- Invariant (failure-free runs): no task ends in the failed outcome. -/
def NoFailedInv (s : SysState) : Prop :=
  ∀ (i : Nat) (t : CTask), s.tasks[i]? = some t → t.phase ≠ Phase.finished outcomeFailed

/-- Invariant (failure-free runs, key `k` fresh at the start): the executor
has run at most once for `k`, and the run count, the cache marker and the
set of converting tasks stay in lock step. -/
def SingleRunInv (k : String) (s : SysState) : Prop :=
  (s.runs k = 0 ∧ s.hasMd k = false ∧ ∀ i, ¬convAt s i k) ∨
    (s.runs k = 1 ∧ s.hasMd k = false ∧
      ∃ i, convAt s i k ∧ ∀ j, convAt s j k → j = i) ∨
    (s.runs k = 1 ∧ s.hasMd k = true ∧ ∀ i, ¬convAt s i k)

theorem lockInv_step {b : Bool} {s s' : SysState}
    (h : LockInv s) (hs : Step b s s') : LockInv s' := by
  cases hs with
  | acquire i k ht hl =>
    rintro j k' ⟨t, hjt, hk, hp⟩
    show upd s.lockHolder k (some i) k' = some j
    by_cases hij : i = j
    · subst hij
      rw [show (({ tasks := s.tasks.set i ⟨k, Phase.locked⟩, lockHolder := upd s.lockHolder k (some i), hasMd := s.hasMd, runs := s.runs } : SysState)).tasks = s.tasks.set i ⟨k, Phase.locked⟩ from rfl] at hjt
      rw [List.getElem?_set_self (getq_lt ht)] at hjt
      have htk : t = ⟨k, Phase.locked⟩ := (Option.some.inj hjt).symm
      subst htk
      simp only [] at hk
      subst hk
      exact upd_same _ _ _
    · have hjt' : s.tasks[j]? = some t := by
        rw [show (({ tasks := s.tasks.set i ⟨k, Phase.locked⟩, lockHolder := upd s.lockHolder k (some i), hasMd := s.hasMd, runs := s.runs } : SysState)).tasks = s.tasks.set i ⟨k, Phase.locked⟩ from rfl] at hjt
        rwa [List.getElem?_set_ne hij] at hjt
      have hold := h j k' ⟨t, hjt', hk, hp⟩
      by_cases hkk : k' = k
      · subst hkk
        rw [hl] at hold
        exact absurd hold (by simp)
      · exact (upd_other s.lockHolder k k' (some i) hkk).trans hold
  | cacheHit i k ht hm =>
    rintro j k' ⟨t, hjt, hk, hp⟩
    show upd s.lockHolder k none k' = some j
    by_cases hij : i = j
    · subst hij
      rw [show (({ tasks := s.tasks.set i ⟨k, Phase.finished outcomeCached⟩, lockHolder := upd s.lockHolder k none, hasMd := s.hasMd, runs := s.runs } : SysState)).tasks = s.tasks.set i ⟨k, Phase.finished outcomeCached⟩ from rfl] at hjt
      rw [List.getElem?_set_self (getq_lt ht)] at hjt
      have htk : t = ⟨k, Phase.finished outcomeCached⟩ := (Option.some.inj hjt).symm
      subst htk
      rcases hp with hp | hp <;> exact absurd hp (by simp)
    · have hjt' : s.tasks[j]? = some t := by
        rw [show (({ tasks := s.tasks.set i ⟨k, Phase.finished outcomeCached⟩, lockHolder := upd s.lockHolder k none, hasMd := s.hasMd, runs := s.runs } : SysState)).tasks = s.tasks.set i ⟨k, Phase.finished outcomeCached⟩ from rfl] at hjt
        rwa [List.getElem?_set_ne hij] at hjt
      have hold := h j k' ⟨t, hjt', hk, hp⟩
      have hi := h i k ⟨⟨k, Phase.locked⟩, ht, rfl, Or.inl rfl⟩
      by_cases hkk : k' = k
      · subst hkk
        rw [hold] at hi
        exact absurd (Option.some.inj hi).symm hij
      · exact (upd_other s.lockHolder k k' none hkk).trans hold
  | cacheMiss i k ht hm =>
    rintro j k' ⟨t, hjt, hk, hp⟩
    show s.lockHolder k' = some j
    by_cases hij : i = j
    · subst hij
      rw [show (({ tasks := s.tasks.set i ⟨k, Phase.converting⟩, lockHolder := s.lockHolder, hasMd := s.hasMd, runs := upd s.runs k (s.runs k + 1) } : SysState)).tasks = s.tasks.set i ⟨k, Phase.converting⟩ from rfl] at hjt
      rw [List.getElem?_set_self (getq_lt ht)] at hjt
      have htk : t = ⟨k, Phase.converting⟩ := (Option.some.inj hjt).symm
      subst htk
      simp only [] at hk
      subst hk
      exact h i _ ⟨⟨_, Phase.locked⟩, ht, rfl, Or.inl rfl⟩
    · have hjt' : s.tasks[j]? = some t := by
        rw [show (({ tasks := s.tasks.set i ⟨k, Phase.converting⟩, lockHolder := s.lockHolder, hasMd := s.hasMd, runs := upd s.runs k (s.runs k + 1) } : SysState)).tasks = s.tasks.set i ⟨k, Phase.converting⟩ from rfl] at hjt
        rwa [List.getElem?_set_ne hij] at hjt
      exact h j k' ⟨t, hjt', hk, hp⟩
  | convertOk i k ht =>
    rintro j k' ⟨t, hjt, hk, hp⟩
    show upd s.lockHolder k none k' = some j
    by_cases hij : i = j
    · subst hij
      rw [show (({ tasks := s.tasks.set i ⟨k, Phase.finished outcomeFresh⟩, lockHolder := upd s.lockHolder k none, hasMd := upd s.hasMd k true, runs := s.runs } : SysState)).tasks = s.tasks.set i ⟨k, Phase.finished outcomeFresh⟩ from rfl] at hjt
      rw [List.getElem?_set_self (getq_lt ht)] at hjt
      have htk : t = ⟨k, Phase.finished outcomeFresh⟩ := (Option.some.inj hjt).symm
      subst htk
      rcases hp with hp | hp <;> exact absurd hp (by simp)
    · have hjt' : s.tasks[j]? = some t := by
        rw [show (({ tasks := s.tasks.set i ⟨k, Phase.finished outcomeFresh⟩, lockHolder := upd s.lockHolder k none, hasMd := upd s.hasMd k true, runs := s.runs } : SysState)).tasks = s.tasks.set i ⟨k, Phase.finished outcomeFresh⟩ from rfl] at hjt
        rwa [List.getElem?_set_ne hij] at hjt
      have hold := h j k' ⟨t, hjt', hk, hp⟩
      have hi := h i k ⟨⟨k, Phase.converting⟩, ht, rfl, Or.inr rfl⟩
      by_cases hkk : k' = k
      · subst hkk
        rw [hold] at hi
        exact absurd (Option.some.inj hi).symm hij
      · exact (upd_other s.lockHolder k k' none hkk).trans hold
  | convertFail i k ht hf =>
    rintro j k' ⟨t, hjt, hk, hp⟩
    show upd s.lockHolder k none k' = some j
    by_cases hij : i = j
    · subst hij
      rw [show (({ tasks := s.tasks.set i ⟨k, Phase.finished outcomeFailed⟩, lockHolder := upd s.lockHolder k none, hasMd := s.hasMd, runs := s.runs } : SysState)).tasks = s.tasks.set i ⟨k, Phase.finished outcomeFailed⟩ from rfl] at hjt
      rw [List.getElem?_set_self (getq_lt ht)] at hjt
      have htk : t = ⟨k, Phase.finished outcomeFailed⟩ := (Option.some.inj hjt).symm
      subst htk
      rcases hp with hp | hp <;> exact absurd hp (by simp)
    · have hjt' : s.tasks[j]? = some t := by
        rw [show (({ tasks := s.tasks.set i ⟨k, Phase.finished outcomeFailed⟩, lockHolder := upd s.lockHolder k none, hasMd := s.hasMd, runs := s.runs } : SysState)).tasks = s.tasks.set i ⟨k, Phase.finished outcomeFailed⟩ from rfl] at hjt
        rwa [List.getElem?_set_ne hij] at hjt
      have hold := h j k' ⟨t, hjt', hk, hp⟩
      have hi := h i k ⟨⟨k, Phase.converting⟩, ht, rfl, Or.inr rfl⟩
      by_cases hkk : k' = k
      · subst hkk
        rw [hold] at hi
        exact absurd (Option.some.inj hi).symm hij
      · exact (upd_other s.lockHolder k k' none hkk).trans hold
  | lockTimeout i k ht =>
    rintro j k' ⟨t, hjt, hk, hp⟩
    show s.lockHolder k' = some j
    by_cases hij : i = j
    · subst hij
      rw [show (({ tasks := s.tasks.set i ⟨k, Phase.finished outcomeBusy⟩, lockHolder := s.lockHolder, hasMd := s.hasMd, runs := s.runs } : SysState)).tasks = s.tasks.set i ⟨k, Phase.finished outcomeBusy⟩ from rfl] at hjt
      rw [List.getElem?_set_self (getq_lt ht)] at hjt
      have htk : t = ⟨k, Phase.finished outcomeBusy⟩ := (Option.some.inj hjt).symm
      subst htk
      rcases hp with hp | hp <;> exact absurd hp (by simp)
    · have hjt' : s.tasks[j]? = some t := by
        rw [show (({ tasks := s.tasks.set i ⟨k, Phase.finished outcomeBusy⟩, lockHolder := s.lockHolder, hasMd := s.hasMd, runs := s.runs } : SysState)).tasks = s.tasks.set i ⟨k, Phase.finished outcomeBusy⟩ from rfl] at hjt
        rwa [List.getElem?_set_ne hij] at hjt
      exact h j k' ⟨t, hjt', hk, hp⟩

/-- A task slot after `List.set`: either the written slot or an untouched one. -/
theorem set_cases {l : List CTask} {i j : Nat} {a t : CTask}
    (hi : i < l.length) (hjt : (l.set i a)[j]? = some t) :
    (i = j ∧ t = a) ∨ (i ≠ j ∧ l[j]? = some t) := by
  by_cases hij : i = j
  · subst hij
    rw [List.getElem?_set_self hi] at hjt
    exact Or.inl ⟨rfl, (Option.some.inj hjt).symm⟩
  · rw [List.getElem?_set_ne hij] at hjt
    exact Or.inr ⟨hij, hjt⟩

theorem noFailed_step {s s' : SysState}
    (h : NoFailedInv s) (hs : Step false s s') : NoFailedInv s' := by
  cases hs with
  | acquire i k ht hl =>
    intro j t hjt
    rcases set_cases (getq_lt ht) hjt with ⟨-, ht2⟩ | ⟨-, ht2⟩
    · subst ht2; simp
    · exact h j t ht2
  | cacheHit i k ht hm =>
    intro j t hjt
    rcases set_cases (getq_lt ht) hjt with ⟨-, ht2⟩ | ⟨-, ht2⟩
    · subst ht2; simp [outcomeCached, outcomeFailed]
    · exact h j t ht2
  | cacheMiss i k ht hm =>
    intro j t hjt
    rcases set_cases (getq_lt ht) hjt with ⟨-, ht2⟩ | ⟨-, ht2⟩
    · subst ht2; simp
    · exact h j t ht2
  | convertOk i k ht =>
    intro j t hjt
    rcases set_cases (getq_lt ht) hjt with ⟨-, ht2⟩ | ⟨-, ht2⟩
    · subst ht2; simp [outcomeFresh, outcomeFailed]
    · exact h j t ht2
  | convertFail i k ht hf => exact absurd hf (by simp)
  | lockTimeout i k ht =>
    intro j t hjt
    rcases set_cases (getq_lt ht) hjt with ⟨-, ht2⟩ | ⟨-, ht2⟩
    · subst ht2; simp [outcomeBusy, outcomeFailed]
    · exact h j t ht2

/-- Rebuild `SingleRunInv` when a step left the key's run count, cache marker
and converting set untouched. -/
theorem singleRunInv_congr {k : String} {s s' : SysState}
    (h2 : SingleRunInv k s)
    (hr : s'.runs k = s.runs k) (hm : s'.hasMd k = s.hasMd k)
    (hc : ∀ j, convAt s' j k ↔ convAt s j k) : SingleRunInv k s' := by
  rcases h2 with ⟨h1, h2, h3⟩ | ⟨h1, h2, i, hi, hu⟩ | ⟨h1, h2, h3⟩
  · exact Or.inl ⟨hr.trans h1, hm.trans h2, fun i hci => h3 i ((hc i).mp hci)⟩
  · exact Or.inr (Or.inl ⟨hr.trans h1, hm.trans h2, i, (hc i).mpr hi,
      fun j hcj => hu j ((hc j).mp hcj)⟩)
  · exact Or.inr (Or.inr ⟨hr.trans h1, hm.trans h2,
      fun i hci => h3 i ((hc i).mp hci)⟩)

/-- The converting set is untouched by a step that writes a slot whose new
phase is not `converting` for the tracked key. -/
theorem convAt_set_untouched {s : SysState} {i : Nat} {a : CTask} {k : String}
    (hi : i < s.tasks.length)
    (hnotold : ¬(s.tasks[i]? = some ⟨k, Phase.converting⟩))
    (hnotnew : a ≠ ⟨k, Phase.converting⟩) (j : Nat) :
    (s.tasks.set i a)[j]? = some (⟨k, Phase.converting⟩ : CTask) ↔
      convAt s j k := by
  unfold convAt
  constructor
  · intro hx
    rcases set_cases hi hx with ⟨heq, ht2⟩ | ⟨-, ht2⟩
    · exact absurd ht2.symm hnotnew
    · exact ht2
  · intro hx
    by_cases hij : i = j
    · subst hij
      exact absurd hx hnotold
    · rwa [List.getElem?_set_ne hij]

theorem singleRun_step {k : String} {s s' : SysState} (hL : LockInv s)
    (h2 : SingleRunInv k s) (hs : Step false s s') : SingleRunInv k s' := by
  cases hs with
  | acquire i k0 ht hl =>
    refine singleRunInv_congr h2 rfl rfl (fun j => ?_)
    show (s.tasks.set i ⟨k0, Phase.locked⟩)[j]? = some (⟨k, Phase.converting⟩ : CTask) ↔
      convAt s j k
    refine convAt_set_untouched (getq_lt ht) (fun hx => ?_) (by simp) j
    rw [ht] at hx
    exact absurd (congrArg CTask.phase (Option.some.inj hx)) (by simp)
  | cacheHit i k0 ht hm =>
    refine singleRunInv_congr h2 rfl rfl (fun j => ?_)
    show (s.tasks.set i ⟨k0, Phase.finished outcomeCached⟩)[j]? =
        some (⟨k, Phase.converting⟩ : CTask) ↔ convAt s j k
    refine convAt_set_untouched (getq_lt ht) (fun hx => ?_) (by simp) j
    rw [ht] at hx
    exact absurd (congrArg CTask.phase (Option.some.inj hx)) (by simp)
  | cacheMiss i k0 ht hm =>
    by_cases hkk : k0 = k
    · subst hkk
      -- the executor starts for the tracked key
      rcases h2 with ⟨h1, hmd, h3⟩ | ⟨h1, hmd, i0, hi0, hu⟩ | ⟨h1, hmd, h3⟩
      · refine Or.inr (Or.inl ⟨?_, hmd, i, ?_, ?_⟩)
        · show upd s.runs k0 (s.runs k0 + 1) k0 = 1
          rw [upd_same, h1]
        · show (s.tasks.set i ⟨k0, Phase.converting⟩)[i]? = some (⟨k0, Phase.converting⟩ : CTask)
          exact List.getElem?_set_self (getq_lt ht)
        · intro j hcj
          have hcj' : (s.tasks.set i ⟨k0, Phase.converting⟩)[j]? =
              some (⟨k0, Phase.converting⟩ : CTask) := hcj
          rcases set_cases (getq_lt ht) hcj' with ⟨heq, -⟩ | ⟨-, ht2⟩
          · exact heq.symm
          · exact absurd ht2 (h3 j)
      · -- a second start is impossible while another task converts: the
        -- stepping task holds the lock, so does the converting one
        have hhold_i := hL i k0 ⟨⟨k0, Phase.locked⟩, ht, rfl, Or.inl rfl⟩
        have hhold_i0 := hL i0 k0 ⟨⟨k0, Phase.converting⟩, hi0, rfl, Or.inr rfl⟩
        rw [hhold_i] at hhold_i0
        have hii : i = i0 := Option.some.inj hhold_i0
        subst hii
        have hi0' : s.tasks[i]? = some (⟨k0, Phase.converting⟩ : CTask) := hi0
        rw [ht] at hi0'
        exact absurd (congrArg CTask.phase (Option.some.inj hi0')) (by simp)
      · rw [hm] at hmd
        exact absurd hmd (by simp)
    · refine singleRunInv_congr h2 ?_ rfl (fun j => ?_)
      · show upd s.runs k0 (s.runs k0 + 1) k = s.runs k
        exact upd_other _ _ _ _ (fun hx => hkk hx.symm)
      · show (s.tasks.set i ⟨k0, Phase.converting⟩)[j]? =
            some (⟨k, Phase.converting⟩ : CTask) ↔ convAt s j k
        refine convAt_set_untouched (getq_lt ht) (fun hx => ?_) ?_ j
        · rw [ht] at hx
          exact absurd (congrArg CTask.phase (Option.some.inj hx)) (by simp)
        · intro hx
          exact hkk (congrArg CTask.key hx)
  | convertOk i k0 ht =>
    by_cases hkk : k0 = k
    · subst hkk
      rcases h2 with ⟨h1, hmd, h3⟩ | ⟨h1, hmd, i0, hi0, hu⟩ | ⟨h1, hmd, h3⟩
      · exact absurd ht (h3 i)
      · -- the finishing task is the unique converting one; afterwards the
        -- cache marker is set and nobody converts
        have hii0 : i = i0 := hu i ht
        subst hii0
        refine Or.inr (Or.inr ⟨h1, upd_same _ _ _, ?_⟩)
        intro j hcj
        have hcj' : (s.tasks.set i ⟨k0, Phase.finished outcomeFresh⟩)[j]? =
            some (⟨k0, Phase.converting⟩ : CTask) := hcj
        rcases set_cases (getq_lt ht) hcj' with ⟨-, ht2⟩ | ⟨hne, ht2⟩
        · exact absurd (congrArg CTask.phase ht2) (by simp)
        · exact hne (hu j ht2).symm
      · exact absurd ht (h3 i)
    · refine singleRunInv_congr h2 rfl ?_ (fun j => ?_)
      · show upd s.hasMd k0 true k = s.hasMd k
        exact upd_other _ _ _ _ (fun hx => hkk hx.symm)
      · show (s.tasks.set i ⟨k0, Phase.finished outcomeFresh⟩)[j]? =
            some (⟨k, Phase.converting⟩ : CTask) ↔ convAt s j k
        refine convAt_set_untouched (getq_lt ht) (fun hx => ?_) (by simp) j
        rw [ht] at hx
        exact hkk (congrArg CTask.key (Option.some.inj hx))
  | convertFail i k0 ht hf => exact absurd hf (by simp)
  | lockTimeout i k0 ht =>
    refine singleRunInv_congr h2 rfl rfl (fun j => ?_)
    show (s.tasks.set i ⟨k0, Phase.finished outcomeBusy⟩)[j]? =
        some (⟨k, Phase.converting⟩ : CTask) ↔ convAt s j k
    refine convAt_set_untouched (getq_lt ht) (fun hx => ?_) (by simp) j
    rw [ht] at hx
    exact absurd (congrArg CTask.phase (Option.some.inj hx)) (by simp)

theorem lockInv_init {s : SysState} (h : InitState s) : LockInv s := by
  rintro i k ⟨t, hit, hk, hp⟩
  have := h.1 t (List.getElem?_mem hit)
  rcases hp with hp | hp <;> rw [this] at hp <;> exact absurd hp (by simp)

theorem lockInv_reach {b : Bool} {s0 s : SysState}
    (h0 : InitState s0) (hr : Reach b s0 s) : LockInv s := by
  induction hr with
  | refl => exact lockInv_init h0
  | tail _ hstep ih => exact lockInv_step ih hstep

theorem singleRun_reach {k : String} {s0 s : SysState}
    (h0 : InitState s0) (hmd : s0.hasMd k = false) (hr : Reach false s0 s) :
    SingleRunInv k s ∧ NoFailedInv s := by
  have base2 : SingleRunInv k s0 := by
    refine Or.inl ⟨h0.2.2 k, hmd, fun i hci => ?_⟩
    have := h0.1 _ (List.getElem?_mem hci)
    exact absurd this (by simp)
  have base3 : NoFailedInv s0 := by
    intro i t hit
    rw [h0.1 t (List.getElem?_mem hit)]
    simp
  induction hr with
  | refl => exact ⟨base2, base3⟩
  | tail hsteps hstep ih =>
    have hLock := lockInv_reach h0 hsteps
    exact ⟨singleRun_step hLock ih.1 hstep, noFailed_step ih.2 hstep⟩

/-! ## Claim theorems -/

/-- C1: two submissions with byte-identical content compute the same
ContentKey regardless of the submitted filename (the key is the hex MD5 of
the bytes, obtained by folding 8192-byte chunks, and equals the digest of the
whole stream), and when a successful conversion for that key already exists
(`has_md_output`), the submission is answered from the cache: the stored
output files are enumerated and returned with `success = true` and the
cached flag set, and `run_mineru` is not invoked. -/
theorem c1_identical_bytes_same_key_served_from_cache :
    (∀ b1 b2 : List Nat, b1 = b2 → calculate_file_md5 b1 = calculate_file_md5 b2) ∧
    (∀ b : List Nat, calculate_file_md5 b = md5Hex b) ∧
    (∀ (fs : FS) (b : List Nat) (fn base : String) (eng : EngineOutcome)
        (left : List OutFile) (pp : Nat),
      has_md_output (fs.output (calculate_file_md5 b)) = true →
      (process_pdf_task fs b fn base true eng left pp).engineCalls = 0 ∧
      runSuccess (process_pdf_task fs b fn base true eng left pp) = true ∧
      runCachedFlag (process_pdf_task fs b fn base true eng left pp) = true ∧
      runMd5 (process_pdf_task fs b fn base true eng left pp) =
        some (calculate_file_md5 b) ∧
      runFiles (process_pdf_task fs b fn base true eng left pp) =
        some (get_output_files ((fs.output (calculate_file_md5 b)).getD []))) := by
  refine ⟨fun b1 b2 h => by rw [h], calculate_file_md5_eq_md5Hex, ?_⟩
  intro fs b fn base eng left pp h
  refine ⟨?_, ?_, ?_, ?_, ?_⟩ <;>
    simp [process_pdf_task, runSuccess, runCachedFlag, runMd5, runFiles, h]

/-- Witness for C1 at a concrete store whose output directory already holds a
markdown artifact. -/
theorem c1_witness :
    calculate_file_md5 [1, 2, 3] = calculate_file_md5 [1, 2, 3] ∧
    calculate_file_md5 [] = md5Hex [] ∧
    (process_pdf_task
        ⟨true, fun _ => false, fun _ => false, fun _ => [],
         fun _ => some [⟨"doc.md", "doc.md", 3, some "abc"⟩]⟩
        [1, 2, 3] "a.pdf" "http://h" true .timedOut [] 0).engineCalls = 0 := by
  refine ⟨c1_identical_bytes_same_key_served_from_cache.1 _ _ rfl,
    c1_identical_bytes_same_key_served_from_cache.2.1 [], ?_⟩
  exact (c1_identical_bytes_same_key_served_from_cache.2.2
    ⟨true, fun _ => false, fun _ => false, fun _ => [],
     fun _ => some [⟨"doc.md", "doc.md", 3, some "abc"⟩]⟩
    [1, 2, 3] "a.pdf" "http://h" .timedOut [] 0 (by decide)).1

/-- C3: when the per-key lock cannot be acquired within its timeout (the
`FileLock` is configured with a 300-second timeout), `_process_pdf_task`
raises HTTP 409 with the retry message, the temporary input file has been
removed by the time the error is signalled, and the engine is not invoked. -/
theorem c3_lock_timeout_busy (fs : FS) (b : List Nat) (fn base : String)
    (eng : EngineOutcome) (left : List OutFile) (pp : Nat) :
    (process_pdf_task fs b fn base false eng left pp).result =
      .error ⟨409, busyMessage (calculate_file_md5 b)⟩ ∧
    (process_pdf_task fs b fn base false eng left pp).fs.tempExists = false ∧
    (process_pdf_task fs b fn base false eng left pp).engineCalls = 0 ∧
    (get_lock_for_md5 (calculate_file_md5 b)).timeout = 300 := by
  refine ⟨?_, ?_, ?_, rfl⟩ <;> simp [process_pdf_task]

/-- C5: each `run_mineru` call performs exactly one engine invocation with no
internal retry, and classifies the outcome: exit code 0 is success carrying
stdout; a non-zero exit code is a failure derived from stderr; a missing
binary is the distinct engine-not-found failure, different from the timeout
message and from every stderr-derived message. -/
theorem c5_run_mineru_classification :
    (∀ eng : EngineOutcome, (run_mineru eng).2 = 1) ∧
    (∀ out err : String, (run_mineru (.completed 0 out err)).1 = (true, out)) ∧
    (∀ (rc : Int) (out err : String), rc ≠ 0 →
      (run_mineru (.completed rc out err)).1 = (false, "mineru 执行失败: " ++ err)) ∧
    (run_mineru .engineMissing).1 = (false, engineMissingMessage) ∧
    (run_mineru .timedOut).1 = (false, engineTimeoutMessage) ∧
    engineMissingMessage ≠ engineTimeoutMessage ∧
    (∀ err : String, engineMissingMessage ≠ "mineru 执行失败: " ++ err) := by
  refine ⟨fun eng => rfl, fun out err => rfl, ?_, rfl, rfl, by decide, ?_⟩
  · intro rc out err h
    simp [run_mineru, h]
  · intro err h
    have hd := congrArg String.data h
    rw [string_data_append] at hd
    have ht := congrArg (fun l => List.take ("mineru 执行失败: ".data.length) l) hd
    simp only [List.take_left] at ht
    exact absurd ht (by decide)

/-- Witness for C5: a non-zero exit code at a concrete stderr. -/
theorem c5_witness :
    (run_mineru (.completed 1 "out" "boom")).1 = (false, "mineru 执行失败: " ++ "boom") ∧
    (run_mineru .timedOut).2 = 1 ∧
    engineMissingMessage ≠ "mineru 执行失败: " ++ "boom" :=
  ⟨c5_run_mineru_classification.2.2.1 1 "out" "boom" (by decide),
   c5_run_mineru_classification.1 .timedOut,
   c5_run_mineru_classification.2.2.2.2.2.2 "boom"⟩


/-- First-of-two options: the way `first_md_path` is only recorded once. -/
def optFirst {α : Type} : Option α → Option α → Option α
  | some x, _ => some x
  | none, b => b

theorem optFirst_keeps_left {α : Type} (a : Option α) (x : α) (y : Option α) :
    optFirst (optFirst a (some x)) y = optFirst a (some x) := by
  cases a <;> rfl

theorem read_md_aux_first_exact (target : String)
    (hT : strEndsWith target ".md" = true) :
    ∀ (walk : List OutFile) (acc : Option OutFile) (f : OutFile) (c : String),
      walk.find? (fun g => g.name = target) = some f → f.content = some c →
      read_md_aux target walk acc = some c := by
  intro walk
  induction walk with
  | nil =>
    intro acc f c hf hc
    simp [List.find?] at hf
  | cons g rest ih =>
    intro acc f c hf hc
    by_cases hname : g.name = target
    · have hstep : ((g :: rest).find? fun x => x.name = target) = some g := by
        rw [List.find?_cons]
        simp [hname]
      rw [hstep] at hf
      have hfg : f = g := (Option.some.inj hf).symm
      subst hfg
      simp [read_md_aux, hname, hT, hc]
    · have hstep : ((g :: rest).find? fun x => x.name = target) =
          rest.find? fun x => x.name = target := by
        rw [List.find?_cons]
        simp [hname]
      rw [hstep] at hf
      by_cases hmd : strEndsWith g.name ".md" = true
      · cases acc with
        | some a =>
          have l1 : read_md_aux target (g :: rest) (some a) =
              read_md_aux target rest (some a) := by
            simp [read_md_aux, hmd, hname]
          rw [l1]
          exact ih (some a) f c hf hc
        | none =>
          have l1 : read_md_aux target (g :: rest) none =
              read_md_aux target rest (some g) := by
            simp [read_md_aux, hmd, hname]
          rw [l1]
          exact ih (some g) f c hf hc
      · have l1 : read_md_aux target (g :: rest) acc = read_md_aux target rest acc := by
          simp [read_md_aux, hmd]
        rw [l1]
        exact ih acc f c hf hc

theorem read_md_aux_no_exact (target : String) :
    ∀ (walk : List OutFile) (acc : Option OutFile),
      (∀ f ∈ walk, f.name ≠ target) →
      read_md_aux target walk acc =
        (optFirst acc (walk.find? fun g => strEndsWith g.name ".md")).bind
          OutFile.content := by
  intro walk
  induction walk with
  | nil =>
    intro acc h
    cases acc <;> simp [read_md_aux, optFirst, List.find?]
  | cons g rest ih =>
    intro acc h
    have hname : g.name ≠ target := h g (by simp)
    have hrest : ∀ f ∈ rest, f.name ≠ target := fun f hf => h f (by simp [hf])
    by_cases hmd : strEndsWith g.name ".md" = true
    · have hfind : ((g :: rest).find? fun x => strEndsWith x.name ".md") = some g := by
        rw [List.find?_cons]
        simp [hmd]
      rw [hfind]
      cases acc with
      | some a =>
        have l1 : read_md_aux target (g :: rest) (some a) =
            read_md_aux target rest (some a) := by
          simp [read_md_aux, hmd, hname]
        rw [l1, ih (some a) hrest]
        simp [optFirst]
      | none =>
        have l1 : read_md_aux target (g :: rest) none =
            read_md_aux target rest (some g) := by
          simp [read_md_aux, hmd, hname]
        rw [l1, ih (some g) hrest]
        simp [optFirst]
    · have hfind : ((g :: rest).find? fun x => strEndsWith x.name ".md") =
          rest.find? fun x => strEndsWith x.name ".md" := by
        rw [List.find?_cons]
        simp [hmd]
      rw [hfind]
      have l1 : read_md_aux target (g :: rest) acc = read_md_aux target rest acc := by
        simp [read_md_aux, hmd]
      rw [l1]
      exact ih acc hrest

/-- C7: the cache resolver prefers the markdown file named exactly
`<ContentKey>.md` (the first such file, when readable, is returned); when no
such file exists it falls back to the first `.md` file in traversal order
(whose read may itself fail, yielding no content); and a cached request still
succeeds with the full file enumeration even if every content read failed. -/
theorem c7_primary_document_resolution :
    (∀ (walk : List OutFile) (md5 : String) (f : OutFile) (c : String),
      walk.find? (fun g => g.name = md5 ++ ".md") = some f →
      f.content = some c →
      read_md_content (some walk) md5 = some c) ∧
    (∀ (walk : List OutFile) (md5 : String),
      (∀ f ∈ walk, f.name ≠ md5 ++ ".md") →
      read_md_content (some walk) md5 =
        ((walk.find? fun g => strEndsWith g.name ".md").bind OutFile.content)) ∧
    (∀ (fs : FS) (b : List Nat) (fn base : String) (eng : EngineOutcome)
        (left : List OutFile) (pp : Nat),
      has_md_output (fs.output (calculate_file_md5 b)) = true →
      runSuccess (process_pdf_task fs b fn base true eng left pp) = true ∧
      runFiles (process_pdf_task fs b fn base true eng left pp) =
        some (get_output_files ((fs.output (calculate_file_md5 b)).getD []))) := by
  refine ⟨?_, ?_, ?_⟩
  · intro walk md5 f c hf hc
    exact read_md_aux_first_exact (md5 ++ ".md") (strEndsWith_append md5 ".md")
      walk none f c hf hc
  · intro walk md5 h
    exact read_md_aux_no_exact (md5 ++ ".md") walk none h
  · intro fs b fn base eng left pp h
    constructor <;> simp [process_pdf_task, runSuccess, runFiles, h]

/-- Witness for C7: an exact-named readable file wins; with no exact match
the first `.md` is used even when its read fails; a cached hit still succeeds
when the only markdown file is unreadable. -/
theorem c7_witness :
    read_md_content (some [⟨"z.md", "z.md", 1, some "first"⟩,
      ⟨"k.md", "k.md", 1, some "exact"⟩]) "k" = some "exact" ∧
    read_md_content (some [⟨"a.md", "a.md", 1, none⟩,
      ⟨"b.md", "b.md", 1, some "second"⟩]) "k" = none ∧
    runSuccess (process_pdf_task
      ⟨true, fun _ => false, fun _ => false, fun _ => [],
       fun _ => some [⟨"doc.md", "doc.md", 3, none⟩]⟩
      [7] "a.pdf" "http://h" true .timedOut [] 0) = true := by
  refine ⟨?_, ?_, ?_⟩
  · exact c7_primary_document_resolution.1
      [⟨"z.md", "z.md", 1, some "first"⟩, ⟨"k.md", "k.md", 1, some "exact"⟩]
      "k" ⟨"k.md", "k.md", 1, some "exact"⟩ "exact" (by decide) rfl
  · exact (c7_primary_document_resolution.2.1
      [⟨"a.md", "a.md", 1, none⟩, ⟨"b.md", "b.md", 1, some "second"⟩]
      "k" (by decide)).trans (by decide)
  · exact (c7_primary_document_resolution.2.2
      ⟨true, fun _ => false, fun _ => false, fun _ => [],
       fun _ => some [⟨"doc.md", "doc.md", 3, none⟩]⟩
      [7] "a.pdf" "http://h" .timedOut [] 0 (by decide)).1


/-- C4 (amended): when the engine exceeds its wall-clock timeout the run is
reported as the timeout failure class (`success = false` with the timeout
message); however no cleanup happens: the output directory keeps exactly what
the killed engine left behind, so a later request for the key reports
cache-valid precisely when the interrupted engine had already written a
markdown file — only when it left no `.md` does the next request re-run the
executor. -/
theorem run_mineru_calls_one (eng : EngineOutcome) : (run_mineru eng).2 = 1 := rfl

theorem c4_timeout_reported_but_output_left_as_is :
    ∀ (fs : FS) (b : List Nat) (fn base : String) (left : List OutFile) (pp : Nat),
      has_md_output (fs.output (calculate_file_md5 b)) = false →
      runSuccess (process_pdf_task fs b fn base true .timedOut left pp) = false ∧
      runMessage (process_pdf_task fs b fn base true .timedOut left pp) =
        some engineTimeoutMessage ∧
      (process_pdf_task fs b fn base true .timedOut left pp).fs.output
        (calculate_file_md5 b) = some left ∧
      (left.all (fun f => !(strEndsWith f.name ".md")) = true →
        ∀ (eng2 : EngineOutcome) (left2 : List OutFile),
          (process_pdf_task (process_pdf_task fs b fn base true .timedOut left pp).fs
            b fn base true eng2 left2 pp).engineCalls = 1) := by
  intro fs b fn base left pp h
  have hout : (process_pdf_task fs b fn base true .timedOut left pp).fs.output
      (calculate_file_md5 b) = some left := by
    simp [process_pdf_task, h, run_mineru, upd]
  refine ⟨?_, ?_, hout, ?_⟩
  · simp [process_pdf_task, h, run_mineru, runSuccess]
  · simp [process_pdf_task, h, run_mineru, runMessage]
  · intro hall eng2 left2
    have hnomd : has_md_output ((process_pdf_task fs b fn base true .timedOut left pp).fs.output
        (calculate_file_md5 b)) = false := by
      rw [hout]
      show left.any (fun f => strEndsWith f.name ".md") = false
      rw [List.any_eq_false]
      intro f hf
      have := List.all_eq_true.mp hall f hf
      simpa using this
    generalize hgen : (process_pdf_task fs b fn base true .timedOut left pp).fs = fs1 at hnomd
    by_cases hrc : ((run_mineru eng2).1).1 = true
    · simp [process_pdf_task, hnomd, hrc, run_mineru_calls_one]
    · simp [process_pdf_task, hnomd, hrc, run_mineru_calls_one]

/-- Counterexample to C4 as stated: a timed-out conversion whose killed
engine already wrote `partial.md` leaves the output directory in a state the
next request for the same key reports as cache-valid (served as a successful
cache hit without re-running the engine). -/
theorem c4_counterexample :
    runSuccess (process_pdf_task
      ⟨true, fun _ => false, fun _ => false, fun _ => [], fun _ => none⟩
      [] "a.pdf" "http://h" true .timedOut
      [⟨"partial.md", "partial.md", 1, some "x"⟩] 0) = false ∧
    runMessage (process_pdf_task
      ⟨true, fun _ => false, fun _ => false, fun _ => [], fun _ => none⟩
      [] "a.pdf" "http://h" true .timedOut
      [⟨"partial.md", "partial.md", 1, some "x"⟩] 0) = some engineTimeoutMessage ∧
    runCachedFlag (process_pdf_task
      (process_pdf_task
        ⟨true, fun _ => false, fun _ => false, fun _ => [], fun _ => none⟩
        [] "a.pdf" "http://h" true .timedOut
        [⟨"partial.md", "partial.md", 1, some "x"⟩] 0).fs
      [] "a.pdf" "http://h" true .timedOut [] 0) = true ∧
    runSuccess (process_pdf_task
      (process_pdf_task
        ⟨true, fun _ => false, fun _ => false, fun _ => [], fun _ => none⟩
        [] "a.pdf" "http://h" true .timedOut
        [⟨"partial.md", "partial.md", 1, some "x"⟩] 0).fs
      [] "a.pdf" "http://h" true .timedOut [] 0) = true ∧
    (process_pdf_task
      (process_pdf_task
        ⟨true, fun _ => false, fun _ => false, fun _ => [], fun _ => none⟩
        [] "a.pdf" "http://h" true .timedOut
        [⟨"partial.md", "partial.md", 1, some "x"⟩] 0).fs
      [] "a.pdf" "http://h" true .timedOut [] 0).engineCalls = 0 := by
  refine ⟨?_, ?_, ?_, ?_, ?_⟩ <;> decide

/-- Witness for C4 (amended) at a fresh store: the interrupted engine left
only an auxiliary file, so the next request re-runs the executor. -/
theorem c4_witness :
    runSuccess (process_pdf_task
      ⟨true, fun _ => false, fun _ => false, fun _ => [], fun _ => none⟩
      [9] "a.pdf" "http://h" true .timedOut [⟨"x.json", "x.json", 2, none⟩] 0) = false ∧
    (process_pdf_task
      (process_pdf_task
        ⟨true, fun _ => false, fun _ => false, fun _ => [], fun _ => none⟩
        [9] "a.pdf" "http://h" true .timedOut [⟨"x.json", "x.json", 2, none⟩] 0).fs
      [9] "a.pdf" "http://h" true (.completed 0 "ok" "") [] 0).engineCalls = 1 := by
  have h := c4_timeout_reported_but_output_left_as_is
    ⟨true, fun _ => false, fun _ => false, fun _ => [], fun _ => none⟩
    [9] "a.pdf" "http://h" [⟨"x.json", "x.json", 2, none⟩] 0 (by decide)
  exact ⟨h.1, h.2.2.2 (by decide) (.completed 0 "ok" "") []⟩

/-- Status projection of the `/status/{md5}` endpoint result. -/
def statusString : Except HttpErr StatusResp → Option String
  | .ok st => some st.status
  | .error _ => none

/-- C10: the status endpoint reports `completed` exactly when the output
enumeration is non-empty — any file suffices — which is strictly weaker than
the cache criterion `has_md_output`: markdown presence implies `completed`,
but a directory holding only auxiliary files is reported `completed` while a
new submission of the same content still re-runs the executor. -/
theorem c10_status_completed_weaker_than_cache :
    (∀ (md5 base : String) (inF : List String) (outDir : Option (List OutFile)),
      statusString (get_status md5 base true inF outDir) = some "completed" ↔
        (match outDir with
         | some walk => get_output_files walk
         | none => []) ≠ []) ∧
    (∀ (md5 base : String) (inF : List String) (outDir : Option (List OutFile)),
      has_md_output outDir = true →
      statusString (get_status md5 base true inF outDir) = some "completed") ∧
    (statusString (get_status "k" "http://h" true []
        (some [⟨"x.json", "x.json", 5, none⟩])) = some "completed" ∧
      has_md_output (some [⟨"x.json", "x.json", 5, none⟩]) = false ∧
      (process_pdf_task
        ⟨true, fun _ => false, fun _ => false, fun _ => [],
         fun _ => some [⟨"x.json", "x.json", 5, none⟩]⟩
        [5] "a.pdf" "http://h" true (.completed 0 "" "") [] 0).engineCalls = 1) := by
  have part1 : ∀ (md5 base : String) (inF : List String)
      (outDir : Option (List OutFile)),
      statusString (get_status md5 base true inF outDir) = some "completed" ↔
        (match outDir with
         | some walk => get_output_files walk
         | none => []) ≠ [] := by
    intro md5 base inF outDir
    cases outDir with
    | none => simp [get_status, statusString]
    | some walk =>
      by_cases hw : (get_output_files walk).isEmpty = true
      · rw [List.isEmpty_iff] at hw
        simp [get_status, statusString, hw]
      · have hne : get_output_files walk ≠ [] := by
          simpa [List.isEmpty_iff] using hw
        simp [get_status, statusString, hne, List.isEmpty_iff]
  refine ⟨part1, ?_, ?_, by decide, by decide⟩
  · intro md5 base inF outDir h
    rw [part1]
    match outDir, h with
    | some walk, h =>
      show get_output_files walk ≠ []
      have hany : walk.any (fun f => strEndsWith f.name ".md") = true := h
      match walk, hany with
      | f :: rest, _ => simp [get_output_files]
  · decide


/-- C6: a `/mineru` submission providing neither `pdf_url` nor `pdf_path`, or
both, is rejected with HTTP 400 by both the local-conversion service and the
forwarding service, with an empty side-effect trace: no temp directory or
file is touched, nothing is downloaded or copied, and no task (hence no
per-key lock acquisition) is ever dispatched. -/
theorem c6_invalid_input_rejected_before_side_effects :
    ∀ (u p : Option String) (pe pp : Bool) (fetch : FetchOutcome)
      (cp : CopyOutcome) (ro : RemoteOutcome),
      (u = none ∧ p = none) ∨ (u.isSome = true ∧ p.isSome = true) →
      ((mineru_endpoint_ocr u p pe pp fetch).result = .error ⟨400, errNeitherMessage⟩ ∨
        (mineru_endpoint_ocr u p pe pp fetch).result = .error ⟨400, errBothMessage⟩) ∧
      (mineru_endpoint_ocr u p pe pp fetch).events = [] ∧
      ((mineru_endpoint_fwd u p pe pp cp fetch ro).result = .error ⟨400, errNeitherMessage⟩ ∨
        (mineru_endpoint_fwd u p pe pp cp fetch ro).result = .error ⟨400, errBothMessage⟩) ∧
      (mineru_endpoint_fwd u p pe pp cp fetch ro).events = [] ∧
      (mineru_endpoint_fwd u p pe pp cp fetch ro).tempLeft = false := by
  intro u p pe pp fetch cp ro h
  rcases h with ⟨hu, hp⟩ | ⟨hu, hp⟩
  · subst hu
    subst hp
    exact ⟨Or.inl rfl, rfl, Or.inl rfl, rfl, rfl⟩
  · obtain ⟨a, ha⟩ := Option.isSome_iff_exists.mp hu
    obtain ⟨c, hc⟩ := Option.isSome_iff_exists.mp hp
    subst ha
    subst hc
    refine ⟨Or.inr ?_, ?_, Or.inr ?_, ?_, ?_⟩ <;>
      simp [mineru_endpoint_ocr, mineru_endpoint_fwd]

/-- Witness for C6 at both invalid shapes. -/
theorem c6_witness :
    (mineru_endpoint_ocr none none true true .ok).events = [] ∧
    (mineru_endpoint_fwd (some "http://x/a.pdf") (some "/tmp/a.pdf") true true
      .ok .ok (.ok "{}")).tempLeft = false :=
  ⟨(c6_invalid_input_rejected_before_side_effects none none true true .ok .ok
      (.ok "{}") (Or.inl ⟨rfl, rfl⟩)).2.1,
   (c6_invalid_input_rejected_before_side_effects (some "http://x/a.pdf")
      (some "/tmp/a.pdf") true true .ok .ok (.ok "{}")
      (Or.inr ⟨rfl, rfl⟩)).2.2.2.2⟩

/-- C8 (amended): `forward_to_backend` removes the temporary file in its
`finally` block on every exit path of the remote call — normal completion,
remote timeout, transport failure, or any other exception — so every
submission flow (URL download, local copy, or upload) that reaches the
remote call ends with the file gone.  The materialization step before the
remote call, however, performs no cleanup of its own: a URL download, a
local `shutil.copy2`, or an upload save that fails after the temporary file
was opened raises to a handler that does not unlink, leaving the partially
written file on disk. -/
theorem c8_temp_file_cleanup_scope :
    (∀ (t : Bool) (ro : RemoteOutcome), (forward_to_backend t ro).2 = false) ∧
    (∀ (u : String) (pe pp : Bool) (cp : CopyOutcome) (ro : RemoteOutcome),
      (mineru_endpoint_fwd (some u) none pe pp cp .ok ro).tempLeft = false) ∧
    (∀ (p : String) (ro : RemoteOutcome),
      (mineru_endpoint_fwd none (some p) true true .ok .ok ro).tempLeft = false) ∧
    (∀ (ro : RemoteOutcome),
      (file_mineru_endpoint_fwd true true .ok ro).tempLeft = false) ∧
    (∀ (u e : String) (ro : RemoteOutcome),
      (mineru_endpoint_fwd (some u) none true true .ok (.failPartial e) ro).tempLeft
        = true) ∧
    (∀ (p e : String) (fetch : FetchOutcome) (ro : RemoteOutcome),
      (mineru_endpoint_fwd none (some p) true true (.failed e) fetch ro).tempLeft
        = true) ∧
    (∀ (e : String) (ro : RemoteOutcome),
      (file_mineru_endpoint_fwd true true (.failPartial e) ro).tempLeft = true) := by
  refine ⟨fun t ro => rfl, ?_, ?_, ?_, ?_, ?_, ?_⟩
  · intro u pe pp cp ro
    simp [mineru_endpoint_fwd, forward_to_backend]
  · intro p ro
    simp [mineru_endpoint_fwd, forward_to_backend]
  · intro ro
    simp [file_mineru_endpoint_fwd, forward_to_backend]
  · intro u e ro
    simp [mineru_endpoint_fwd]
  · intro p e fetch ro
    simp [mineru_endpoint_fwd]
  · intro e ro
    simp [file_mineru_endpoint_fwd]

/-- Counterexample to C8 as stated: a URL submission whose download fails
after chunks were already written leaves the request's temporary file on
disk while the handler reports the 500 download error. -/
theorem c8_counterexample :
    (mineru_endpoint_fwd (some "http://x/doc.pdf") none true true .ok
      (.failPartial "connection reset") (.ok "{}")).tempLeft = true ∧
    (mineru_endpoint_fwd (some "http://x/doc.pdf") none true true .ok
      (.failPartial "connection reset") (.ok "{}")).result =
      .error ⟨500, "下载 PDF 失败: connection reset"⟩ := by
  exact ⟨rfl, rfl⟩

theorem flatten_filter_ne_nil {α : Type} [DecidableEq α] (L : List (List α)) :
    (L.filter fun c => decide (c ≠ [])).flatten = L.flatten := by
  induction L with
  | nil => rfl
  | cons c t ih =>
    by_cases hc : c = []
    · subst hc
      simpa [List.filter_cons] using ih
    · simpa [List.filter_cons, hc] using ih

/-- C9 (amended): the `/files/{path}` proxy issues the inbound method (GET or
POST) to the remote file endpoint with the identity headers (and forwarded
credential) attached, streams the remote body back in chunks of at most 8192
bytes whose concatenation is exactly the body, and passes the remote
content-type through (defaulting to `application/octet-stream` when absent);
the attachment filename, however, is the basename of the requested path —
remote filename metadata is never consulted. -/
theorem c9_method_headers_streaming :
    ∀ (method path ip : String) (auth : Option String)
      (remote : ProxiedRequest → RemoteFileResp),
      (download_file method path ip auth remote).1.method =
        (if method = "POST" then "POST" else "GET") ∧
      (download_file method path ip auth remote).1.url =
        MINERU_VLM_URL ++ "/files/" ++ path ∧
      (download_file method path ip auth remote).1.headers =
        [("X-Forwarded-For", ip), ("X-Real-IP", ip)] ++
          (match auth with
           | some a => [("Authorization", a)]
           | none => []) ∧
      (download_file method path ip auth remote).2.chunks.flatten =
        (remote (download_file method path ip auth remote).1).body ∧
      (∀ c ∈ (download_file method path ip auth remote).2.chunks,
        c.length ≤ 8192 ∧ c ≠ []) ∧
      (download_file method path ip auth remote).2.mediaType =
        ((remote (download_file method path ip auth remote).1).contentType.getD
          "application/octet-stream") ∧
      (download_file method path ip auth remote).2.disposition =
        "attachment; filename=\"" ++ basename path ++ "\"" := by
  intro method path ip auth remote
  refine ⟨rfl, rfl, rfl, ?_, ?_, rfl, rfl⟩
  · show ((chunksOf 8192 (remote _).body).filter fun c => decide (c ≠ [])).flatten = _
    rw [flatten_filter_ne_nil]
    exact chunksOf_flatten 8192 (by decide) _
  · intro c hc
    have hc' : c ∈ (chunksOf 8192 (remote (download_file method path ip auth remote).1).body).filter
        (fun c => decide (c ≠ [])) := hc
    have hmem := List.mem_of_mem_filter hc'
    have hpred := List.of_mem_filter hc'
    exact ⟨chunksOf_length_le 8192 _ c hmem, by simpa using hpred⟩

/-- Witness for C9 at a concrete remote response and path. -/
theorem c9_witness :
    (download_file "GET" "out/a/doc.json" "1.2.3.4" none
      (fun _ => ⟨some "text/markdown", some "other.bin", [1, 2, 3]⟩)).1.method = "GET" ∧
    ([1, 2, 3].length ≤ 8192 ∧ [1, 2, 3] ≠ []) ∧
    (download_file "GET" "out/a/doc.json" "1.2.3.4" none
      (fun _ => ⟨some "text/markdown", some "other.bin", [1, 2, 3]⟩)).2.mediaType =
      "text/markdown" := by
  have h := c9_method_headers_streaming "GET" "out/a/doc.json" "1.2.3.4" none
    (fun _ => ⟨some "text/markdown", some "other.bin", [1, 2, 3]⟩)
  refine ⟨h.1, h.2.2.2.2.1 [1, 2, 3] ?_, h.2.2.2.2.2.1⟩
  decide

/-- Counterexample to C9 as stated: the remote's filename metadata says
`other.bin`, but the caller receives an attachment disposition derived from
the request path (`doc.json`) — the remote filename is not passed through. -/
theorem c9_counterexample :
    (download_file "GET" "out/a/doc.json" "1.2.3.4" none
      (fun _ => ⟨some "text/plain", some "other.bin", [1, 2, 3]⟩)).2.disposition =
      "attachment; filename=\"doc.json\"" ∧
    ((fun (_ : ProxiedRequest) => (⟨some "text/plain", some "other.bin", [1, 2, 3]⟩ :
      RemoteFileResp)) ((download_file "GET" "out/a/doc.json" "1.2.3.4" none
        (fun _ => ⟨some "text/plain", some "other.bin", [1, 2, 3]⟩)).1)).dispositionName =
      some "other.bin" ∧
    "attachment; filename=\"doc.json\"" ≠ "attachment; filename=\"other.bin\"" := by
  refine ⟨?_, rfl, by decide⟩
  decide


/-- C2 (amended): (1) in every run of the per-key lock protocol, at most one
task is between lock acquisition and release for a given key at any instant —
in particular at most one conversion per key runs at a time; (2) a waiting
task whose key's lock is free can always acquire it, whatever the state of
other keys' locks, so requests for distinct keys never block each other;
(3) as long as no conversion fails, the executor starts at most once per key
and no request ends in the failed outcome — each request ends served from
cache, as the one fresh conversion, or busy.  (If a conversion fails, a later
waiter re-runs the executor for the same key, which is why the original
at-most-once-per-scenario phrasing does not hold unconditionally.) -/
theorem c2_single_flight_per_key :
    (∀ (s0 s : SysState), InitState s0 → Reach true s0 s →
      ∀ (i j : Nat) (k : String), holdsAt s i k → holdsAt s j k → i = j) ∧
    (∀ (s : SysState) (i : Nat) (k : String),
      s.tasks[i]? = some ⟨k, Phase.waiting⟩ → s.lockHolder k = none →
      Step true s ⟨s.tasks.set i ⟨k, Phase.locked⟩, upd s.lockHolder k (some i),
        s.hasMd, s.runs⟩) ∧
    (∀ (s0 s : SysState) (k : String), InitState s0 → s0.hasMd k = false →
      Reach false s0 s →
      s.runs k ≤ 1 ∧
      ∀ (i : Nat) (t : CTask), s.tasks[i]? = some t →
        t.phase ≠ Phase.finished outcomeFailed) := by
  refine ⟨?_, ?_, ?_⟩
  · intro s0 s h0 hr i j k hi hj
    have hL := lockInv_reach h0 hr
    have h1 := hL i k hi
    have h2 := hL j k hj
    rw [h1] at h2
    exact Option.some.inj h2
  · intro s i k ht hl
    exact Step.acquire s i k ht hl
  · intro s0 s k h0 hmd hr
    obtain ⟨hs, hnf⟩ := singleRun_reach h0 hmd hr
    refine ⟨?_, hnf⟩
    rcases hs with ⟨h1, -, -⟩ | ⟨h1, -, -⟩ | ⟨h1, -, -⟩ <;> omega

/-- Witness for C2 at a one-task system: mutual exclusion after an acquire
step, enabledness of that step, and the failure-free run bound at the start
state. -/
theorem c2_witness :
    (0 : Nat) = 0 ∧
    Step true
      ⟨[⟨"k", Phase.waiting⟩], fun _ => none, fun _ => false, fun _ => 0⟩
      ⟨[(⟨"k", Phase.waiting⟩ : CTask)].set 0 ⟨"k", Phase.locked⟩,
       upd (fun _ => none) "k" (some 0), fun _ => false, fun _ => 0⟩ ∧
    SysState.runs ⟨[⟨"k", Phase.waiting⟩], fun _ => none, fun _ => false, fun _ => 0⟩
      "k" ≤ 1 := by
  have h0 : InitState ⟨[⟨"k", Phase.waiting⟩], fun _ => none, fun _ => false, fun _ => 0⟩ :=
    ⟨by decide, fun _ => rfl, fun _ => rfl⟩
  refine ⟨?_, ?_, ?_⟩
  · exact c2_single_flight_per_key.1
      ⟨[⟨"k", Phase.waiting⟩], fun _ => none, fun _ => false, fun _ => 0⟩
      _ h0
      (Relation.ReflTransGen.single
        (Step.acquire ⟨[⟨"k", Phase.waiting⟩], fun _ => none, fun _ => false, fun _ => 0⟩
          0 "k" rfl rfl))
      0 0 "k" ⟨⟨"k", Phase.locked⟩, rfl, rfl, Or.inl rfl⟩
      ⟨⟨"k", Phase.locked⟩, rfl, rfl, Or.inl rfl⟩
  · exact c2_single_flight_per_key.2.1
      ⟨[⟨"k", Phase.waiting⟩], fun _ => none, fun _ => false, fun _ => 0⟩ 0 "k" rfl rfl
  · exact (c2_single_flight_per_key.2.2
      ⟨[⟨"k", Phase.waiting⟩], fun _ => none, fun _ => false, fun _ => 0⟩
      ⟨[⟨"k", Phase.waiting⟩], fun _ => none, fun _ => false, fun _ => 0⟩
      "k" h0 rfl Relation.ReflTransGen.refl).1

/-- Counterexample to C2 as stated: when the engine may fail, two concurrent
submissions of one key can invoke the executor twice — the first conversion
fails, the second waiter misses the cache and converts again — so “the
Conversion Executor runs at most once for that key” is refuted; the run
count for the key reaches 2 from a legal initial state. -/
theorem c2_counterexample :
    ¬ ∀ (s0 s : SysState) (k : String), InitState s0 → s0.hasMd k = false →
        Reach true s0 s → s.runs k ≤ 1 := by
  intro h
  have h0 : InitState ⟨[⟨"k", Phase.waiting⟩, ⟨"k", Phase.waiting⟩],
      fun _ => none, fun _ => false, fun _ => 0⟩ :=
    ⟨by decide, fun _ => rfl, fun _ => rfl⟩
  have hr := Relation.ReflTransGen.tail
    (Relation.ReflTransGen.tail
      (Relation.ReflTransGen.tail
        (Relation.ReflTransGen.tail
          (Relation.ReflTransGen.single
            (Step.acquire
              ⟨[⟨"k", Phase.waiting⟩, ⟨"k", Phase.waiting⟩],
               fun _ => none, fun _ => false, fun _ => 0⟩ 0 "k" rfl rfl))
          (Step.cacheMiss _ 0 "k" rfl rfl))
        (Step.convertFail _ 0 "k" rfl rfl))
      (Step.acquire _ 1 "k" rfl rfl))
    (Step.cacheMiss _ 1 "k" rfl rfl)
  have hle := h _ _ "k" h0 rfl hr
  exact absurd hle (by decide)


/-- Witness for C10: a markdown-bearing output directory is reported
`completed`. -/
theorem c10_witness :
    has_md_output (some [⟨"d.md", "d.md", 2, some "t"⟩]) = true ∧
    statusString (get_status "k" "http://h" true []
      (some [⟨"d.md", "d.md", 2, some "t"⟩])) = some "completed" :=
  ⟨by decide,
   c10_status_completed_weaker_than_cache.2.1 "k" "http://h" []
     (some [⟨"d.md", "d.md", 2, some "t"⟩]) (by decide)⟩


end MineruClient
